import Mathlib

/-!
# A shallow embedding of the `const_table` attribute macro

This file models the validation-and-synthesis pipeline of the `const_table`
crate (`src/lib.rs`, function `const_table`) and proves the testable
properties of its specification against that model.

The embedding follows the source line by line:

* `Attr`, `Variant`, `Fields`, `Expr`, `ItemEnum` model the fragments of the
  `syn` declaration tree the macro actually inspects;
* `stepAttr` is the body of the attribute loop (lib.rs lines 142-179),
  returning `none` where the Rust code would panic (`attr.parse_args().unwrap()`);
* `stepVariant` is the body of the variant loop (lib.rs lines 187-213);
* `buildOutput` is the remainder of the function (lines 184-297), and
  `const_table` glues the two together;
* `generatedTryFrom`, `generatedIter`, `generatedDeref` give the semantics of
  the generated `TryFrom`, `iter` and `Deref` items, using the facts that the
  synthesized enum has no explicit discriminants and a `repr(uN)` attribute,
  so Rust assigns discriminants `0, 1, ...` in declaration order.

Diagnostics are modelled as a span (the identifier the `Span` points at)
paired with the exact message string from the source.
-/

set_option autoImplicit false

namespace ConstTable

/-- One argument of a `#[derive(..)]` attribute, as the macro classifies it:
a `syn::NestedMeta::Meta(syn::Meta::Path(p))` (rendered as its path text), or
anything else (ignored by the conflict check). -/
inductive DeriveArg where
  | path (s : String)
  | otherArg
deriving DecidableEq, Repr

/-- The argument tokens of a `#[repr(..)]` attribute: either they parse as a
single identifier (`attr.parse_args::<Ident>()` succeeds) or they do not, in
which case the `.unwrap()` in the source panics. -/
inductive ReprArg where
  | ident (s : String)
  | malformed
deriving DecidableEq, Repr

/-- An attribute on the input enum, classified the way the macro's loop does:
by whether its path is `derive` (with `parse_meta` yielding a `Meta::List` of
arguments, or not), `repr`, or anything else (opaque, identified by its
source text). -/
inductive Attr where
  | derive (parsed : Option (List DeriveArg))
  | reprAttr (arg : ReprArg)
  | otherAttr (text : String)
deriving DecidableEq, Repr

/-- The fields of a variant (`syn::Fields`). -/
inductive Fields where
  | named (fields : List (String × String))
  | unnamed (len : Nat)
  | unit
deriving DecidableEq, Repr

/-- `syn::Fields::is_empty`: `Unit` is empty, and so are `Named`/`Unnamed`
field lists of length zero. -/
def Fields.is_empty : Fields → Bool
  | .named fs => fs.isEmpty
  | .unnamed n => n == 0
  | .unit => true

/-- A discriminant expression. The macro never looks inside these: it clones
them into the generated table verbatim, and manufactures one empty tuple
expression `()` as a placeholder (lib.rs lines 207-209). We keep record
initializers structured so field-for-field claims can be stated. -/
inductive Expr where
  | emptyTuple
  | structLit (path : String) (fields : List (String × String))
  | otherExpr (text : String)
deriving DecidableEq, Repr

/-- A variant of the input enum (`syn::Variant`): name, attributes, fields,
optional discriminant expression. -/
structure Variant where
  name : String
  attrs : List Attr
  fields : Fields
  discriminant : Option Expr
deriving DecidableEq, Repr

/-- The input item (`syn::ItemEnum`): name, visibility, number of generic
parameters, attributes, variants. -/
structure ItemEnum where
  name : String
  vis : String
  genericsCount : Nat
  attrs : List Attr
  variants : List Variant
deriving DecidableEq, Repr

/-- A diagnostic: the identifier its `Span` points at, and the message. -/
structure Diag where
  span : String
  msg : String
deriving DecidableEq, Repr

/-- The generated artifact: the stripped enum (with its pass-through
attributes, repr type, name and unit variants), the payload struct (its
attributes, visibility, name and fields), the `COUNT` constant and the
`Deref` lookup table's row expressions. -/
structure Artifact where
  enumAttrs : List Attr
  reprType : String
  enumName : String
  enumVariants : List Variant
  structAttrs : List Attr
  structVis : String
  structName : String
  structFields : List (String × String)
  count : Nat
  tableExprs : List Expr
deriving DecidableEq, Repr

/-! ## Diagnostic messages (verbatim from the source) -/

def genericErrMsg : String := "a const_table enum cannot be generic"

def conflictMsg (s : String) : String :=
  "the " ++ s ++ " trait is already implemented by the const_table macro"

def reprErrMsg : String :=
  "unsupported repr hint for a const_table enum: expected one of u8, u16, u32 or u64 (default is u32)"

def fieldsErrMsg : String :=
  "in a const_table enum, only the first variant should have fields"

def missingDiscrMsg : String :=
  "in a const_table enum, all but the first variant should have a discriminant expression"

def needsVariantMsg : String :=
  "a const_table enum needs at least one variant with a discriminant expression"

def layoutFieldsMsg : String :=
  "the first variant of a const_table enum should have named fields to specify the table layout"

def needsLayoutMsg : String :=
  "a const_table enum needs at least one variant with named fields to specify the table layout"

/-! ## The attribute loop (lib.rs lines 138-182) -/

/-- The six trait names the macro derives itself (lib.rs lines 148-150). -/
def reservedTraits : List String :=
  ["Copy", "Clone", "Debug", "Hash", "PartialEq", "Eq"]

def isReserved (s : String) : Bool := reservedTraits.contains s

/-- The conflict diagnostics produced for one parsed derive list: one per
`Meta::Path` argument that is a reserved trait name, in order, with the
span at the offending path. -/
def deriveConflictDiags (args : List DeriveArg) : List Diag :=
  args.filterMap fun g =>
    match g with
    | .path s => if isReserved s then some ⟨s, conflictMsg s⟩ else none
    | .otherArg => none

def supportedRepr (s : String) : Bool :=
  s == "u8" || s == "u16" || s == "u32" || s == "u64"

/-- One iteration of the `for attr in input_item.attrs` loop. The state is
`(attrs, repr, errors)`; `none` models the panic of
`attr.parse_args().unwrap()` on a malformed repr argument. -/
def stepAttr (st : List Attr × Option String × List Diag) (attr : Attr) :
    Option (List Attr × Option String × List Diag) :=
  match attr with
  | .derive parsed =>
    let conflicts := (parsed.map deriveConflictDiags).getD []
    if conflicts.isEmpty then
      some (st.1 ++ [attr], st.2.1, st.2.2)
    else
      some (st.1, st.2.1, st.2.2 ++ conflicts)
  | .reprAttr .malformed => none
  | .reprAttr (.ident s) =>
    if supportedRepr s then
      some (st.1, some s, st.2.2)
    else
      some (st.1, st.2.1, st.2.2 ++ [⟨s, reprErrMsg⟩])
  | .otherAttr _ => some (st.1 ++ [attr], st.2.1, st.2.2)

/-! ## The variant loop (lib.rs lines 187-213) -/

/-- One iteration of the map over `input_variants` (all variants after the
first): produces the stripped variant kept for the output enum, the value
expression for the table row, and any diagnostics. A variant with fields is
reported; a variant without a discriminant is reported and its row becomes
the empty tuple placeholder, the variant itself being kept as-is. -/
def stepVariant (v : Variant) : Variant × Expr × List Diag :=
  let fieldDiags : List Diag :=
    if v.fields.is_empty then [] else [⟨v.name, fieldsErrMsg⟩]
  match v.discriminant with
  | some e => ({ v with discriminant := none, fields := .unit }, e, fieldDiags)
  | none => (v, .emptyTuple, fieldDiags ++ [⟨v.name, missingDiscrMsg⟩])

/-! ## The whole transformation -/

/-- The diagnostics accumulated before the attribute loop: the generics
check (lib.rs lines 132-136). -/
def initDiags (input : ItemEnum) : List Diag :=
  if input.genericsCount ≠ 0 then [⟨input.name, genericErrMsg⟩] else []

/-- Everything after the attribute loop (lib.rs lines 184-297): split off the
first variant, map `stepVariant` over the rest, fail fatally on an empty data
variant list or a first variant without named fields, otherwise assemble the
artifact. -/
def buildOutput (input : ItemEnum) (attrs : List Attr) (reprSel : Option String)
    (errs1 : List Diag) : List Diag × Option Artifact :=
  let results := (input.variants.drop 1).map stepVariant
  let variants := results.map (·.1)
  let valueExprs := results.map (·.2.1)
  let errs2 := errs1 ++ results.flatMap (·.2.2)
  if variants.isEmpty then
    (errs2 ++ [⟨input.name, needsVariantMsg⟩], none)
  else
    match input.variants.head? with
    | none => (errs2 ++ [⟨input.name, needsLayoutMsg⟩], none)
    | some v =>
      match v.fields with
      | .named fs =>
        (errs2, some ⟨attrs, reprSel.getD ("u32"), input.name, variants, v.attrs,
          input.vis, v.name, fs, variants.length, valueExprs⟩)
      | _ => (errs2 ++ [⟨v.name, layoutFieldsMsg⟩], none)

/-- The `const_table` transformation on an enum item: run the attribute loop
(`none` = panic), then build the output. The result pairs the ordered
diagnostic list with the artifact, `none` standing for a fatal error where
only diagnostics are emitted. -/
def const_table (input : ItemEnum) : Option (List Diag × Option Artifact) :=
  match input.attrs.foldlM stepAttr ([], none, initDiags input) with
  | none => none
  | some (attrs, reprSel, errs1) => some (buildOutput input attrs reprSel errs1)

/-! ## Semantics of the generated items

The generated enum has `#[repr(uN)]` with no explicit discriminants, so its
cases carry discriminants `0, 1, ..., COUNT-1` in declaration order; a case is
identified with its ordinal below. -/

/-- The bit width of the chosen repr type (one of u8, u16, u32, u64; the
default is u32). -/
def reprBits (s : String) : Nat :=
  if s == "u8" then 8 else if s == "u16" then 16 else if s == "u64" then 64 else 32

/-- The generated `TryFrom<uN>` impl: `if (i as usize) < Self::COUNT { Ok(transmute(i)) }
else { Err(i) }`. The `Ok` case is the variant with discriminant `i`, i.e. the
case with ordinal `i`. -/
def generatedTryFrom (a : Artifact) (i : Nat) : Except Nat Nat :=
  if i < a.count then .ok i else .error i

/-- The sequence of cases yielded by the generated `iter()`:
`(0..Self::COUNT).map(|i| transmute(i as uN))`. The `as uN` cast reduces the
index modulo `2^N`. -/
def generatedIter (a : Artifact) : List Nat :=
  (List.range a.count).map fun i => i % 2 ^ reprBits a.reprType

/-- The generated `Deref` impl: `&TABLE[*self as usize]`, where `TABLE` is the
list of value expressions and `*self as usize` is the case's ordinal. -/
def generatedDeref (a : Artifact) (i : Nat) : Option Expr :=
  a.tableExprs[i]?

/-- The ordinal-to-case map: ordinal `i` names the `i`-th variant of the
generated enum. -/
def ordinalToCase (a : Artifact) (h : a.count = a.enumVariants.length)
    (i : Fin a.count) : Fin a.enumVariants.length :=
  ⟨i.val, h ▸ i.isLt⟩

/-! ## Characterizations of the attribute loop

These recursions restate, step by step, what the loop does to each of its
three pieces of state; the lemma `foldlM_stepAttr` below proves them
equivalent to the fold. -/

/-- An attribute the loop passes through unchanged onto the output enum: a
derive attribute none of whose arguments is a reserved trait path, or any
attribute whose path is neither `derive` nor `repr`. -/
def benign : Attr → Bool
  | .derive parsed => ((parsed.map deriveConflictDiags).getD []).isEmpty
  | .reprAttr _ => false
  | .otherAttr _ => true

/-- The diagnostics the attribute loop emits, in order. -/
def attrDiagsOf : List Attr → List Diag
  | [] => []
  | .derive parsed :: rest => ((parsed.map deriveConflictDiags).getD []) ++ attrDiagsOf rest
  | .reprAttr (.ident s) :: rest =>
    (if supportedRepr s then [] else [⟨s, reprErrMsg⟩]) ++ attrDiagsOf rest
  | .reprAttr .malformed :: rest => attrDiagsOf rest
  | .otherAttr _ :: rest => attrDiagsOf rest

/-- The repr selection left by the attribute loop, starting from `r`: each
supported repr ident overwrites the current selection. -/
def reprSelOf : List Attr → Option String → Option String
  | [], r => r
  | .reprAttr (.ident s) :: rest, r =>
    reprSelOf rest (if supportedRepr s then some s else r)
  | _ :: rest, r => reprSelOf rest r

/-- Every occurrence of a reserved trait name among the path arguments of the
derive attributes of `l`, in order. -/
def reservedMentions (l : List Attr) : List String :=
  l.flatMap fun a =>
    match a with
    | .derive (some args) => args.filterMap fun g =>
        match g with
        | .path s => if isReserved s then some s else none
        | .otherArg => none
    | _ => []

/-! ## Concrete declarations used as witnesses and counterexamples

`speciesInput` is the declaration of the crate's `tests/correct-usage.rs`. -/

def catExpr : Expr := .structLit ("SpeciesInfo") [("sound", "Meow!"), ("legs", "4")]

def dogExpr : Expr := .structLit ("SpeciesInfo") [("sound", "Woof!"), ("legs", "4")]

def humanExpr : Expr := .structLit ("SpeciesInfo") [("sound", "Hello, World"), ("legs", "2")]

def speciesInput : ItemEnum :=
  { name := "SpeciesID", vis := "pub", genericsCount := 0, attrs := [],
    variants := [
      ⟨"SpeciesInfo", [.derive (some [.path ("Debug")])],
        .named [("sound", "str"), ("legs", "u64")], none⟩,
      ⟨"Cat", [], .unit, some catExpr⟩,
      ⟨"Dog", [], .unit, some dogExpr⟩,
      ⟨"Human", [], .unit, some humanExpr⟩] }

/-- The artifact `const_table` produces for `speciesInput`. -/
def speciesArtifact : Artifact :=
  { enumAttrs := [], reprType := "u32", enumName := "SpeciesID",
    enumVariants := [⟨"Cat", [], .unit, none⟩, ⟨"Dog", [], .unit, none⟩,
      ⟨"Human", [], .unit, none⟩],
    structAttrs := [.derive (some [.path ("Debug")])], structVis := "pub",
    structName := "SpeciesInfo",
    structFields := [("sound", "str"), ("legs", "u64")],
    count := 3, tableExprs := [catExpr, dogExpr, humanExpr] }

/-- A declaration whose derive attribute mixes the reserved `Copy` with the
non-reserved `Serialize`. -/
def mixedDeriveInput : ItemEnum :=
  { name := "E", vis := "", genericsCount := 0,
    attrs := [.derive (some [.path ("Copy"), .path ("Serialize")])],
    variants := [
      ⟨"Info", [], .named [("x", "u8")], none⟩,
      ⟨"A", [], .unit, some (.otherExpr ("a"))⟩] }

/-- The artifact `const_table` produces for `mixedDeriveInput`: note the empty
`enumAttrs` — the whole derive attribute was dropped, `Serialize` included. -/
def mixedArtifact : Artifact :=
  { enumAttrs := [], reprType := "u32", enumName := "E",
    enumVariants := [⟨"A", [], .unit, none⟩],
    structAttrs := [], structVis := "", structName := "Info",
    structFields := [("x", "u8")],
    count := 1, tableExprs := [.otherExpr ("a")] }

/-- A declaration naming the single reserved capability `Copy` twice in one
derive attribute. -/
def dupDeriveInput : ItemEnum :=
  { name := "D", vis := "", genericsCount := 0,
    attrs := [.derive (some [.path ("Copy"), .path ("Copy")])],
    variants := [
      ⟨"Info", [], .named [("x", "u8")], none⟩,
      ⟨"A", [], .unit, some (.otherExpr ("a"))⟩] }

/-- The artifact `const_table` produces for `dupDeriveInput`. -/
def dupArtifact : Artifact :=
  { enumAttrs := [], reprType := "u32", enumName := "D",
    enumVariants := [⟨"A", [], .unit, none⟩],
    structAttrs := [], structVis := "", structName := "Info",
    structFields := [("x", "u8")],
    count := 1, tableExprs := [.otherExpr ("a")] }

/-- A declaration whose third variant (second data case) lacks a discriminant
expression. -/
def missingInput : ItemEnum :=
  { name := "M", vis := "", genericsCount := 0, attrs := [],
    variants := [
      ⟨"Info", [], .named [("x", "u8")], none⟩,
      ⟨"A", [], .unit, some (.otherExpr ("a"))⟩,
      ⟨"B", [], .unit, none⟩,
      ⟨"C", [], .unit, some (.otherExpr ("c"))⟩] }

/-- A declaration with a single variant: the layout case only, no data case. -/
def soloInput : ItemEnum :=
  { name := "Solo", vis := "", genericsCount := 0, attrs := [],
    variants := [⟨"Info", [], .named [("x", "u8")], none⟩] }

/-- A declaration requesting the unsupported width `u128`. -/
def wideReprInput : ItemEnum :=
  { name := "R", vis := "", genericsCount := 0,
    attrs := [.reprAttr (.ident ("u128"))],
    variants := [
      ⟨"Info", [], .named [("x", "u8")], none⟩,
      ⟨"A", [], .unit, some (.otherExpr ("a"))⟩] }

/-! ## Lemmas about the attribute loop -/

theorem foldlM_stepAttr_none_iff (l : List Attr) :
    ∀ st : List Attr × Option String × List Diag,
      l.foldlM stepAttr st = none ↔ Attr.reprAttr .malformed ∈ l := by
  induction l with
  | nil => intro st; simp [List.foldlM]
  | cons a rest ih =>
    intro st
    rw [List.foldlM_cons]
    cases a with
    | derive parsed =>
      simp only [stepAttr]
      split <;> simp [ih]
    | reprAttr arg =>
      cases arg with
      | ident s =>
        simp only [stepAttr]
        split <;> simp [ih]
      | malformed => simp [stepAttr]
    | otherAttr t => simp [stepAttr, ih]

theorem foldlM_stepAttr (l : List Attr) :
    ∀ (as : List Attr) (r : Option String) (es : List Diag),
      Attr.reprAttr .malformed ∉ l →
      l.foldlM stepAttr (as, r, es) =
        some (as ++ l.filter benign, reprSelOf l r, es ++ attrDiagsOf l) := by
  induction l with
  | nil => intro as r es _; simp [List.foldlM, reprSelOf, attrDiagsOf]
  | cons a rest ih =>
    intro as r es h
    have hrest : Attr.reprAttr .malformed ∉ rest :=
      fun hm => h (List.mem_cons_of_mem _ hm)
    rw [List.foldlM_cons]
    cases a with
    | derive parsed =>
      simp only [stepAttr]
      by_cases hc : ((parsed.map deriveConflictDiags).getD []).isEmpty
      · rw [if_pos hc]
        simp only [Option.bind_eq_bind, Option.some_bind]
        rw [ih _ _ _ hrest]
        simp [benign, attrDiagsOf, reprSelOf, hc, List.isEmpty_iff.mp hc,
          List.filter_cons]
      · rw [if_neg hc]
        simp only [Option.bind_eq_bind, Option.some_bind]
        rw [ih _ _ _ hrest]
        simp [benign, attrDiagsOf, reprSelOf, hc, List.filter_cons]
    | reprAttr arg =>
      cases arg with
      | ident s =>
        simp only [stepAttr]
        by_cases hs : supportedRepr s
        · rw [if_pos hs]
          simp only [Option.bind_eq_bind, Option.some_bind]
          rw [ih _ _ _ hrest]
          simp [benign, attrDiagsOf, reprSelOf, hs, List.filter_cons]
        · rw [if_neg hs]
          simp only [Option.bind_eq_bind, Option.some_bind]
          rw [ih _ _ _ hrest]
          simp [benign, attrDiagsOf, reprSelOf, hs, List.filter_cons]
      | malformed => exact absurd (List.mem_cons_self _ _) h
    | otherAttr t =>
      simp only [stepAttr, Option.bind_eq_bind, Option.some_bind]
      rw [ih _ _ _ hrest]
      simp [benign, attrDiagsOf, reprSelOf, List.filter_cons]

theorem attrDiagsOf_benign (l : List Attr) (h : ∀ a ∈ l, benign a = true) :
    attrDiagsOf l = [] := by
  induction l with
  | nil => rfl
  | cons a rest ih =>
    have ha := h a (List.mem_cons_self _ _)
    have hr := ih fun b hb => h b (List.mem_cons_of_mem _ hb)
    cases a with
    | derive parsed =>
      simp only [benign] at ha
      simp [attrDiagsOf, List.isEmpty_iff.mp ha, hr]
    | reprAttr arg => simp [benign] at ha
    | otherAttr t => simp [attrDiagsOf, hr]

theorem reprSelOf_benign (l : List Attr) (r : Option String)
    (h : ∀ a ∈ l, benign a = true) : reprSelOf l r = r := by
  induction l with
  | nil => rfl
  | cons a rest ih =>
    have ha := h a (List.mem_cons_self _ _)
    have hr := ih fun b hb => h b (List.mem_cons_of_mem _ hb)
    cases a with
    | derive parsed => simp [reprSelOf, hr]
    | reprAttr arg => simp [benign] at ha
    | otherAttr t => simp [reprSelOf, hr]

theorem attrDiagsOf_append (l1 l2 : List Attr) :
    attrDiagsOf (l1 ++ l2) = attrDiagsOf l1 ++ attrDiagsOf l2 := by
  induction l1 with
  | nil => simp [attrDiagsOf]
  | cons a rest ih =>
    cases a with
    | derive parsed => simp [attrDiagsOf, ih]
    | reprAttr arg => cases arg <;> simp [attrDiagsOf, ih]
    | otherAttr t => simp [attrDiagsOf, ih]

theorem reprSelOf_append (l1 l2 : List Attr) (r : Option String) :
    reprSelOf (l1 ++ l2) r = reprSelOf l2 (reprSelOf l1 r) := by
  induction l1 generalizing r with
  | nil => simp [reprSelOf]
  | cons a rest ih =>
    cases a with
    | derive parsed => simp [reprSelOf, ih]
    | reprAttr arg => cases arg <;> simp [reprSelOf, ih]
    | otherAttr t => simp [reprSelOf, ih]

/-! ## Lemmas about the variant loop and the assembled output -/

theorem stepVariant_exprs (l : List Variant)
    (h : ∀ v ∈ l, v.discriminant.isSome = true) :
    (l.map stepVariant).map (·.2.1) = l.filterMap Variant.discriminant := by
  induction l with
  | nil => rfl
  | cons v rest ih =>
    obtain ⟨e, he⟩ := Option.isSome_iff_exists.mp (h v (List.mem_cons_self _ _))
    simp [stepVariant, he, List.filterMap_cons,
      ih fun w hw => h w (List.mem_cons_of_mem _ hw)]

theorem stepVariant_diags (l : List Variant)
    (hf : ∀ v ∈ l, v.fields.is_empty = true) :
    (l.map stepVariant).flatMap (·.2.2) =
      (l.filter fun v => v.discriminant.isNone).map
        (fun v => (⟨v.name, missingDiscrMsg⟩ : Diag)) := by
  induction l with
  | nil => rfl
  | cons v rest ih =>
    have hv := hf v (List.mem_cons_self _ _)
    have hr := ih fun w hw => hf w (List.mem_cons_of_mem _ hw)
    cases he : v.discriminant with
    | some e => simp [stepVariant, he, hv, hr, List.filter_cons]
    | none => simp [stepVariant, he, hv, hr, List.filter_cons]

theorem const_table_some_shape (input : ItemEnum) (ds : List Diag) (a : Artifact)
    (hout : const_table input = some (ds, some a)) :
    (∃ reprSel errs1,
        input.attrs.foldlM stepAttr ([], none, initDiags input) =
          some (a.enumAttrs, reprSel, errs1) ∧ a.reprType = reprSel.getD ("u32")) ∧
    a.enumVariants = ((input.variants.drop 1).map stepVariant).map (·.1) ∧
    a.tableExprs = ((input.variants.drop 1).map stepVariant).map (·.2.1) ∧
    a.count = (input.variants.drop 1).length ∧
    a.enumName = input.name ∧
    ∃ v fs, input.variants.head? = some v ∧ v.fields = Fields.named fs ∧
      a.structAttrs = v.attrs ∧ a.structName = v.name ∧ a.structFields = fs := by
  unfold const_table at hout
  cases hfold : input.attrs.foldlM stepAttr ([], none, initDiags input) with
  | none => rw [hfold] at hout; simp at hout
  | some st =>
    obtain ⟨attrs, reprSel, errs1⟩ := st
    rw [hfold] at hout
    simp only [] at hout
    unfold buildOutput at hout
    simp only [] at hout
    split at hout
    · simp at hout
    · split at hout
      · simp at hout
      · rename_i v hv
        split at hout
        · rename_i fs hfs
          injection hout with hout
          rw [Prod.mk.injEq] at hout
          obtain ⟨hds, ha⟩ := hout
          injection ha with ha
          subst ha
          refine ⟨⟨reprSel, errs1, rfl, rfl⟩, rfl, rfl, by simp, rfl, v, fs, hv, hfs,
            rfl, rfl, rfl⟩
        · simp at hout

theorem deriveConflictDiags_eq (args : List DeriveArg) :
    deriveConflictDiags args =
      (args.filterMap fun g =>
        match g with
        | DeriveArg.path s => if isReserved s then some s else none
        | DeriveArg.otherArg => none).map
        (fun s => (⟨s, conflictMsg s⟩ : Diag)) := by
  induction args with
  | nil => rfl
  | cons g rest ih =>
    cases g with
    | path s =>
      by_cases hs : isReserved s <;>
        simp [deriveConflictDiags, List.filterMap_cons, hs, ← ih]
    | otherArg => simp [deriveConflictDiags, List.filterMap_cons, ← ih]

theorem attrDiagsOf_no_repr (l : List Attr) (h : ∀ r, Attr.reprAttr r ∉ l) :
    attrDiagsOf l =
      (reservedMentions l).map (fun s => (⟨s, conflictMsg s⟩ : Diag)) := by
  induction l with
  | nil => rfl
  | cons a rest ih =>
    have hrest : ∀ r, Attr.reprAttr r ∉ rest :=
      fun r hr => h r (List.mem_cons_of_mem _ hr)
    cases a with
    | derive parsed =>
      cases parsed with
      | none => simp [attrDiagsOf, reservedMentions, ih hrest]
      | some args =>
        simp [attrDiagsOf, reservedMentions, ih hrest, deriveConflictDiags_eq]
    | reprAttr arg => exact absurd (List.mem_cons_self _ _) (h arg)
    | otherAttr t => simp [attrDiagsOf, reservedMentions, ih hrest]

/-! ## Claim theorems -/

/-- Claim C1: for every declaration the transformation accepts, the generated
fallible reconstruction (`TryFrom` over the chosen representation width)
returns `Ok` of the case with ordinal `i` for every representable input
`i < COUNT`, returns `Err` carrying the input unchanged for every
representable `i ≥ COUNT`, and together with ordinal assignment this makes
ordinal → case a bijection over `[0, COUNT)`. -/
theorem tryFrom_ok_err_bijection (input : ItemEnum) (ds : List Diag) (a : Artifact)
    (hout : const_table input = some (ds, some a)) (i : Nat)
    (hi : i < 2 ^ reprBits a.reprType) :
    (i < a.count → generatedTryFrom a i = .ok i) ∧
    (a.count ≤ i → generatedTryFrom a i = .error i) ∧
    ∃ h : a.count = a.enumVariants.length, Function.Bijective (ordinalToCase a h) := by
  obtain ⟨-, hv, -, hc, -, -⟩ := const_table_some_shape input ds a hout
  refine ⟨fun h => by simp [generatedTryFrom, h],
    fun h => by simp [generatedTryFrom, Nat.not_lt.mpr h], ?_⟩
  have hlen : a.count = a.enumVariants.length := by
    rw [hc, hv]; simp
  refine ⟨hlen, fun x y hxy => ?_, fun j => ?_⟩
  · have hval : x.val = y.val := by
      simpa [ordinalToCase, Fin.ext_iff] using hxy
    exact Fin.ext hval
  · exact ⟨⟨j.val, by rw [hlen]; exact j.isLt⟩, rfl⟩

/-- Witness for C1 at the `SpeciesID` declaration with input `1`. -/
theorem tryFrom_ok_err_bijection_witness :
    const_table speciesInput = some ([], some speciesArtifact) ∧
    1 < 2 ^ reprBits speciesArtifact.reprType ∧
    ((1 < speciesArtifact.count → generatedTryFrom speciesArtifact 1 = .ok 1) ∧
     (speciesArtifact.count ≤ 1 → generatedTryFrom speciesArtifact 1 = .error 1) ∧
     ∃ h : speciesArtifact.count = speciesArtifact.enumVariants.length,
       Function.Bijective (ordinalToCase speciesArtifact h)) :=
  ⟨rfl, by decide,
    tryFrom_ok_err_bijection speciesInput [] speciesArtifact rfl 1 (by decide)⟩

/-- Claim C2: for every declaration the transformation accepts whose case
count fits the chosen width, the generated iteration yields exactly the
ordinals `0, 1, ..., COUNT-1` in declaration order, each case exactly once;
reversing it yields exactly the reversed sequence; and mapping the generated
reconstruction over `0..COUNT-1` re-derives the same sequence (wrapped in
`Ok`). -/
theorem iter_in_declaration_order (input : ItemEnum) (ds : List Diag) (a : Artifact)
    (hout : const_table input = some (ds, some a))
    (hcap : a.count ≤ 2 ^ reprBits a.reprType) :
    generatedIter a = List.range a.count ∧
    (generatedIter a).Nodup ∧
    (∀ i, i ∈ generatedIter a ↔ i < a.count) ∧
    (∀ j, j < a.count → (generatedIter a)[j]? = some j) ∧
    (generatedIter a).reverse = (List.range a.count).reverse ∧
    (List.range a.count).map (generatedTryFrom a) = (generatedIter a).map Except.ok := by
  have hmain : generatedIter a = List.range a.count := by
    unfold generatedIter
    rw [List.map_congr_left (fun i hi =>
      Nat.mod_eq_of_lt (lt_of_lt_of_le (List.mem_range.mp hi) hcap))]
    exact List.map_id _
  refine ⟨hmain, ?_, ?_, ?_, by rw [hmain], ?_⟩
  · rw [hmain]; exact List.nodup_range _
  · intro i; rw [hmain]; exact List.mem_range
  · intro j hj; rw [hmain]; exact List.getElem?_range hj
  · rw [hmain]
    exact List.map_congr_left fun i hi => by
      simp [generatedTryFrom, List.mem_range.mp hi]

/-- Witness for C2 at the `SpeciesID` declaration. -/
theorem iter_in_declaration_order_witness :
    const_table speciesInput = some ([], some speciesArtifact) ∧
    speciesArtifact.count ≤ 2 ^ reprBits speciesArtifact.reprType ∧
    (generatedIter speciesArtifact = List.range speciesArtifact.count ∧
     (generatedIter speciesArtifact).Nodup ∧
     (∀ i, i ∈ generatedIter speciesArtifact ↔ i < speciesArtifact.count) ∧
     (∀ j, j < speciesArtifact.count → (generatedIter speciesArtifact)[j]? = some j) ∧
     (generatedIter speciesArtifact).reverse = (List.range speciesArtifact.count).reverse ∧
     (List.range speciesArtifact.count).map (generatedTryFrom speciesArtifact) =
       (generatedIter speciesArtifact).map Except.ok) :=
  ⟨rfl, by decide,
    iter_in_declaration_order speciesInput [] speciesArtifact rfl (by decide)⟩

/-- Claim C3: for every declaration the transformation accepts in which every
data case carries an initializer, the generated table rows are exactly the
initializer expressions in declaration order (never sorted, deduplicated or
reordered), and projecting the case with ordinal `i` (the generated `Deref`)
returns exactly the initializer expression of the `i`-th data case. -/
theorem deref_rows_in_declaration_order (input : ItemEnum) (ds : List Diag) (a : Artifact)
    (hout : const_table input = some (ds, some a))
    (hall : ∀ v ∈ input.variants.drop 1, v.discriminant.isSome = true) :
    a.tableExprs = (input.variants.drop 1).filterMap Variant.discriminant ∧
    a.tableExprs.length = a.count ∧
    ∀ i, i < a.count →
      generatedDeref a i = ((input.variants.drop 1).filterMap Variant.discriminant)[i]? ∧
      (generatedDeref a i).isSome = true := by
  obtain ⟨-, -, htab, hc, -, -⟩ := const_table_some_shape input ds a hout
  have hrows : a.tableExprs = (input.variants.drop 1).filterMap Variant.discriminant := by
    rw [htab, stepVariant_exprs _ hall]
  have hlen : a.tableExprs.length = a.count := by
    rw [htab, hc]; simp
  refine ⟨hrows, hlen, fun i hi => ⟨?_, ?_⟩⟩
  · unfold generatedDeref; rw [hrows]
  · unfold generatedDeref
    rw [List.getElem?_eq_getElem (by rw [hlen]; exact hi)]
    simp

/-- Witness for C3 at the `SpeciesID` declaration. -/
theorem deref_rows_in_declaration_order_witness :
    const_table speciesInput = some ([], some speciesArtifact) ∧
    (∀ v ∈ speciesInput.variants.drop 1, v.discriminant.isSome = true) ∧
    (speciesArtifact.tableExprs =
        (speciesInput.variants.drop 1).filterMap Variant.discriminant ∧
     speciesArtifact.tableExprs.length = speciesArtifact.count ∧
     ∀ i, i < speciesArtifact.count →
       generatedDeref speciesArtifact i =
         ((speciesInput.variants.drop 1).filterMap Variant.discriminant)[i]? ∧
       (generatedDeref speciesArtifact i).isSome = true) :=
  ⟨rfl, by decide,
    deref_rows_in_declaration_order speciesInput [] speciesArtifact rfl (by decide)⟩

/-- Claim C9: for every declaration the transformation accepts, the generated
`COUNT` constant equals the number of data cases (cases after the first)
literally present in the declaration, and its value does not depend on the
attribute list — in particular not on the chosen representation width. -/
theorem count_matches_data_cases (input : ItemEnum) (ds : List Diag) (a : Artifact)
    (hout : const_table input = some (ds, some a)) :
    a.count = (input.variants.drop 1).length ∧
    ∀ attrs2 ds2 a2,
      const_table { input with attrs := attrs2 } = some (ds2, some a2) →
      a2.count = a.count := by
  obtain ⟨-, -, -, hc, -, -⟩ := const_table_some_shape input ds a hout
  refine ⟨hc, fun attrs2 ds2 a2 h2 => ?_⟩
  obtain ⟨-, -, -, hc2, -, -⟩ := const_table_some_shape _ ds2 a2 h2
  rw [hc2, hc]

/-- Witness for C9 at the `SpeciesID` declaration. -/
theorem count_matches_data_cases_witness :
    const_table speciesInput = some ([], some speciesArtifact) ∧
    (speciesArtifact.count = (speciesInput.variants.drop 1).length ∧
     ∀ attrs2 ds2 a2,
       const_table { speciesInput with attrs := attrs2 } = some (ds2, some a2) →
       a2.count = speciesArtifact.count) :=
  ⟨rfl, count_matches_data_cases speciesInput [] speciesArtifact rfl⟩

/-- Claim C10: the width-selection step is not total: the transformation
panics (modelled as `none`) exactly when the input carries a repr attribute
whose argument does not parse as a single identifier; when every repr
argument is a single identifier, it never panics. -/
theorem malformed_repr_arg_iff (input : ItemEnum) :
    const_table input = none ↔ Attr.reprAttr .malformed ∈ input.attrs := by
  by_cases hm : Attr.reprAttr .malformed ∈ input.attrs
  · simp only [hm, iff_true]
    unfold const_table
    rw [(foldlM_stepAttr_none_iff input.attrs ([], none, initDiags input)).mpr hm]
  · simp only [hm, iff_false]
    unfold const_table
    cases hfold : input.attrs.foldlM stepAttr ([], none, initDiags input) with
    | none =>
      exact absurd ((foldlM_stepAttr_none_iff input.attrs _).mp hfold) hm
    | some st =>
      obtain ⟨attrs, reprSel, errs1⟩ := st
      simp

/-- Counterexample to claim C4 as stated: in `mixedDeriveInput` the derive
attribute names the reserved `Copy` together with the non-reserved
`Serialize`; the claim says `Serialize` is still forwarded, but the
transformation drops the whole attribute, so the synthesized enumeration
carries no pass-through modifiers at all. -/
theorem mixed_derive_serialize_not_forwarded :
    const_table mixedDeriveInput =
      some ([⟨"Copy", conflictMsg ("Copy")⟩], some mixedArtifact) ∧
    mixedArtifact.enumAttrs = [] :=
  ⟨rfl, rfl⟩

/-- Claim C4 (amended): modifiers pass through at whole-attribute
granularity: an attribute that is neither a `repr` attribute nor a derive
attribute naming a reserved capability passes through unchanged onto the
synthesized enumeration (the pass-through list is exactly the `benign`
attributes in order); a derive attribute naming any reserved capability is
dropped in its entirety, together with any non-reserved traits named in the
same attribute; and the modifiers attached to the layout case appear as the
modifiers of the synthesized record type. -/
theorem attrs_passthrough (input : ItemEnum) (ds : List Diag) (a : Artifact)
    (hout : const_table input = some (ds, some a)) :
    a.enumAttrs = input.attrs.filter benign ∧
    (∀ attr ∈ input.attrs, benign attr = true → attr ∈ a.enumAttrs) ∧
    ∃ v, input.variants.head? = some v ∧ a.structAttrs = v.attrs := by
  obtain ⟨⟨reprSel, errs1, hfold, -⟩, -, -, -, -, v, fs, hv, -, hsa, -, -⟩ :=
    const_table_some_shape input ds a hout
  have hm : Attr.reprAttr .malformed ∉ input.attrs := by
    intro hmem
    have hn := (foldlM_stepAttr_none_iff input.attrs ([], none, initDiags input)).mpr hmem
    rw [hfold] at hn
    exact Option.noConfusion hn
  rw [foldlM_stepAttr input.attrs [] none (initDiags input) hm] at hfold
  injection hfold with hfold
  have heq : a.enumAttrs = input.attrs.filter benign := by
    have hfst := congrArg Prod.fst hfold
    simpa using hfst.symm
  refine ⟨heq, fun attr hmem hb => ?_, v, hv, hsa⟩
  rw [heq]
  exact List.mem_filter.mpr ⟨hmem, hb⟩

/-- Witness for the amended C4 at `mixedDeriveInput`. -/
theorem attrs_passthrough_witness :
    const_table mixedDeriveInput =
      some ([⟨"Copy", conflictMsg ("Copy")⟩], some mixedArtifact) ∧
    (mixedArtifact.enumAttrs = mixedDeriveInput.attrs.filter benign ∧
     (∀ attr ∈ mixedDeriveInput.attrs, benign attr = true →
       attr ∈ mixedArtifact.enumAttrs) ∧
     ∃ v, mixedDeriveInput.variants.head? = some v ∧
       mixedArtifact.structAttrs = v.attrs) :=
  ⟨rfl, attrs_passthrough mixedDeriveInput [⟨"Copy", conflictMsg ("Copy")⟩]
    mixedArtifact rfl⟩

/-- Claim C5: for every otherwise-valid declaration in which data cases lack
initializer expressions, the transformation emits exactly one recoverable
diagnostic per such case — located at that case, with the missing-discriminant
message — substitutes the empty tuple placeholder `()` for that case's table
row, leaves every initialized case's row untouched, and still emits the
artifact in the same pass. -/
theorem missing_initializer_recovery (input : ItemEnum) (v0 : Variant)
    (fs : List (String × String))
    (hg : input.genericsCount = 0)
    (hm : Attr.reprAttr .malformed ∉ input.attrs)
    (hq : attrDiagsOf input.attrs = [])
    (hhead : input.variants.head? = some v0)
    (hfs : v0.fields = Fields.named fs)
    (hne : (input.variants.drop 1) ≠ [])
    (hfields : ∀ w ∈ input.variants.drop 1, w.fields.is_empty = true) :
    ∃ a, const_table input =
        some (((input.variants.drop 1).filter fun w => w.discriminant.isNone).map
          (fun w => (⟨w.name, missingDiscrMsg⟩ : Diag)), some a) ∧
      (∀ (j : Nat) (w : Variant),
        (input.variants.drop 1)[j]? = some w → w.discriminant = none →
        a.tableExprs[j]? = some Expr.emptyTuple) ∧
      (∀ (j : Nat) (w : Variant) (e : Expr),
        (input.variants.drop 1)[j]? = some w → w.discriminant = some e →
        a.tableExprs[j]? = some e) := by
  have hinit : initDiags input = [] := by simp [initDiags, hg]
  have hde : (((input.variants.drop 1).map stepVariant).map (·.1)).isEmpty = false := by
    rw [Bool.eq_false_iff]
    intro hcontra
    rw [List.isEmpty_iff] at hcontra
    exact hne (List.map_eq_nil_iff.mp (List.map_eq_nil_iff.mp hcontra))
  unfold const_table
  rw [foldlM_stepAttr input.attrs [] none (initDiags input) hm]
  simp only [buildOutput, hinit, hq, hde, Bool.false_eq_true, if_false, hhead, hfs,
    List.nil_append, List.append_nil, stepVariant_diags _ hfields]
  refine ⟨_, rfl, fun j w hj hw => ?_, fun j w e hj hw => ?_⟩
  · simp only [List.getElem?_map, hj]
    simp [stepVariant, hw]
  · simp only [List.getElem?_map, hj]
    simp [stepVariant, hw]

/-- Witness for C5 at `missingInput`, whose data case `B` lacks an
initializer while `A` and `C` are initialized. -/
theorem missing_initializer_recovery_witness :
    missingInput.genericsCount = 0 ∧
    Attr.reprAttr .malformed ∉ missingInput.attrs ∧
    attrDiagsOf missingInput.attrs = [] ∧
    missingInput.variants.head? = some ⟨"Info", [], .named [("x", "u8")], none⟩ ∧
    (missingInput.variants.drop 1) ≠ [] ∧
    (∀ w ∈ missingInput.variants.drop 1, w.fields.is_empty = true) ∧
    ∃ a, const_table missingInput =
        some (((missingInput.variants.drop 1).filter fun w => w.discriminant.isNone).map
          (fun w => (⟨w.name, missingDiscrMsg⟩ : Diag)), some a) ∧
      (∀ (j : Nat) (w : Variant),
        (missingInput.variants.drop 1)[j]? = some w → w.discriminant = none →
        a.tableExprs[j]? = some Expr.emptyTuple) ∧
      (∀ (j : Nat) (w : Variant) (e : Expr),
        (missingInput.variants.drop 1)[j]? = some w → w.discriminant = some e →
        a.tableExprs[j]? = some e) :=
  ⟨rfl, by decide, rfl, rfl, by decide, by decide,
    missing_initializer_recovery missingInput
      ⟨"Info", [], .named [("x", "u8")], none⟩ [("x", "u8")]
      rfl (by decide) rfl rfl rfl (by decide) (by decide)⟩

/-- Counterexample to claim C6 as stated: `dupDeriveInput` names a single
distinct reserved capability, `Copy`, twice in one derive attribute; the
claim predicts exactly one conflict diagnostic for it, but the transformation
emits two. -/
theorem dup_copy_two_diagnostics :
    const_table dupDeriveInput =
      some ([⟨"Copy", conflictMsg ("Copy")⟩, ⟨"Copy", conflictMsg ("Copy")⟩],
        some dupArtifact) :=
  rfl

/-- Claim C6 (amended): for every otherwise-valid declaration, the
transformation emits exactly one conflict diagnostic per occurrence of a
reserved capability in its derive attributes (one per distinct capability
when, as usual, each is named at most once), each diagnostic naming the
capability; the containing derive attribute is dropped; and synthesis is not
aborted. -/
theorem conflict_diag_per_mention (input : ItemEnum) (v0 : Variant)
    (fs : List (String × String))
    (hg : input.genericsCount = 0)
    (hnr : ∀ r, Attr.reprAttr r ∉ input.attrs)
    (hhead : input.variants.head? = some v0)
    (hfs : v0.fields = Fields.named fs)
    (hne : (input.variants.drop 1) ≠ [])
    (hfields : ∀ w ∈ input.variants.drop 1, w.fields.is_empty = true)
    (hdisc : ∀ w ∈ input.variants.drop 1, w.discriminant.isSome = true) :
    ∃ a, const_table input =
        some ((reservedMentions input.attrs).map
          (fun s => (⟨s, conflictMsg s⟩ : Diag)), some a) ∧
      a.enumAttrs = input.attrs.filter benign := by
  have hinit : initDiags input = [] := by simp [initDiags, hg]
  have hm : Attr.reprAttr .malformed ∉ input.attrs := hnr .malformed
  have hde : (((input.variants.drop 1).map stepVariant).map (·.1)).isEmpty = false := by
    rw [Bool.eq_false_iff]
    intro hcontra
    rw [List.isEmpty_iff] at hcontra
    exact hne (List.map_eq_nil_iff.mp (List.map_eq_nil_iff.mp hcontra))
  have hvd : ((input.variants.drop 1).map stepVariant).flatMap (·.2.2) = [] := by
    rw [stepVariant_diags _ hfields]
    have hfil : (input.variants.drop 1).filter (fun v => v.discriminant.isNone) = [] :=
      List.filter_eq_nil_iff.mpr fun v hv => by
        simp only [Option.isNone_iff_eq_none]
        exact Option.isSome_iff_ne_none.mp (hdisc v hv)
    rw [hfil]
    rfl
  unfold const_table
  rw [foldlM_stepAttr input.attrs [] none (initDiags input) hm]
  simp only [buildOutput, hinit, hvd, hde, Bool.false_eq_true, if_false, hhead, hfs,
    List.nil_append, List.append_nil, attrDiagsOf_no_repr input.attrs hnr]
  exact ⟨_, rfl, rfl⟩

/-- Witness for the amended C6 at `dupDeriveInput`. -/
theorem conflict_diag_per_mention_witness :
    dupDeriveInput.genericsCount = 0 ∧
    (∀ r, Attr.reprAttr r ∉ dupDeriveInput.attrs) ∧
    dupDeriveInput.variants.head? = some ⟨"Info", [], .named [("x", "u8")], none⟩ ∧
    (dupDeriveInput.variants.drop 1) ≠ [] ∧
    (∀ w ∈ dupDeriveInput.variants.drop 1, w.fields.is_empty = true) ∧
    (∀ w ∈ dupDeriveInput.variants.drop 1, w.discriminant.isSome = true) ∧
    ∃ a, const_table dupDeriveInput =
        some ((reservedMentions dupDeriveInput.attrs).map
          (fun s => (⟨s, conflictMsg s⟩ : Diag)), some a) ∧
      a.enumAttrs = dupDeriveInput.attrs.filter benign :=
  ⟨rfl, by intro r hr; simp [dupDeriveInput] at hr, rfl, by decide, by decide, by decide,
    conflict_diag_per_mention dupDeriveInput
      ⟨"Info", [], .named [("x", "u8")], none⟩ [("x", "u8")]
      rfl (by intro r hr; simp [dupDeriveInput] at hr) rfl rfl
      (by decide) (by decide) (by decide)⟩

/-- Claim C7: for every otherwise-valid declaration carrying one repr
attribute whose argument is the single identifier `s` (all other attributes
benign): if `s` is outside {u8, u16, u32, u64}, the transformation emits
exactly one representation diagnostic and proceeds with the default width
u32; if `s` is inside the set, it is accepted as given with no diagnostic.
The selected width is the artifact's single `reprType`, which the generated
items use both as the enum's storage width and as the `TryFrom`
parameter/error type. -/
theorem repr_width_selection (input : ItemEnum) (v0 : Variant)
    (fs : List (String × String)) (pre post : List Attr) (s : String)
    (hg : input.genericsCount = 0)
    (hattrs : input.attrs = pre ++ Attr.reprAttr (.ident s) :: post)
    (hpre : ∀ attr ∈ pre, benign attr = true)
    (hpost : ∀ attr ∈ post, benign attr = true)
    (hhead : input.variants.head? = some v0)
    (hfs : v0.fields = Fields.named fs)
    (hne : (input.variants.drop 1) ≠ [])
    (hfields : ∀ w ∈ input.variants.drop 1, w.fields.is_empty = true)
    (hdisc : ∀ w ∈ input.variants.drop 1, w.discriminant.isSome = true) :
    ∃ a, const_table input =
        some ((if supportedRepr s then [] else [⟨s, reprErrMsg⟩]), some a) ∧
      a.reprType = (if supportedRepr s then s else "u32") := by
  have hinit : initDiags input = [] := by simp [initDiags, hg]
  have hm : Attr.reprAttr .malformed ∉ input.attrs := by
    rw [hattrs]
    intro hmem
    rcases List.mem_append.mp hmem with hp | hp
    · exact absurd (hpre _ hp) (by simp [benign])
    · rcases List.mem_cons.mp hp with hp | hp
      · exact ReprArg.noConfusion (Attr.reprAttr.inj hp)
      · exact absurd (hpost _ hp) (by simp [benign])
  have hde : (((input.variants.drop 1).map stepVariant).map (·.1)).isEmpty = false := by
    rw [Bool.eq_false_iff]
    intro hcontra
    rw [List.isEmpty_iff] at hcontra
    exact hne (List.map_eq_nil_iff.mp (List.map_eq_nil_iff.mp hcontra))
  have hvd : ((input.variants.drop 1).map stepVariant).flatMap (·.2.2) = [] := by
    rw [stepVariant_diags _ hfields]
    have hfil : (input.variants.drop 1).filter (fun v => v.discriminant.isNone) = [] :=
      List.filter_eq_nil_iff.mpr fun v hv => by
        simp only [Option.isNone_iff_eq_none]
        exact Option.isSome_iff_ne_none.mp (hdisc v hv)
    rw [hfil]
    rfl
  have hdiags : attrDiagsOf input.attrs =
      (if supportedRepr s then [] else [⟨s, reprErrMsg⟩]) := by
    rw [hattrs, attrDiagsOf_append, attrDiagsOf_benign pre hpre]
    show attrDiagsOf (Attr.reprAttr (.ident s) :: post) = _
    rw [attrDiagsOf]
    rw [attrDiagsOf_benign post hpost]
    simp
  have hsel : reprSelOf input.attrs none =
      (if supportedRepr s then some s else none) := by
    rw [hattrs, reprSelOf_append, reprSelOf_benign pre _ hpre]
    show reprSelOf (Attr.reprAttr (.ident s) :: post) none = _
    rw [reprSelOf]
    exact reprSelOf_benign post _ hpost
  unfold const_table
  rw [foldlM_stepAttr input.attrs [] none (initDiags input) hm]
  simp only [buildOutput, hinit, hvd, hde, Bool.false_eq_true, if_false, hhead, hfs,
    List.nil_append, List.append_nil, hdiags, hsel]
  refine ⟨_, rfl, ?_⟩
  by_cases hs : supportedRepr s <;> simp [hs]

/-- Witness for C7 at `wideReprInput`, which requests the unsupported width
`u128`. -/
theorem repr_width_selection_witness :
    wideReprInput.genericsCount = 0 ∧
    wideReprInput.attrs = [] ++ Attr.reprAttr (.ident ("u128")) :: [] ∧
    wideReprInput.variants.head? = some ⟨"Info", [], .named [("x", "u8")], none⟩ ∧
    (wideReprInput.variants.drop 1) ≠ [] ∧
    (∀ w ∈ wideReprInput.variants.drop 1, w.discriminant.isSome = true) ∧
    ∃ a, const_table wideReprInput =
        some ((if supportedRepr ("u128") then [] else [⟨"u128", reprErrMsg⟩]), some a) ∧
      a.reprType = (if supportedRepr ("u128") then "u128" else "u32") :=
  ⟨rfl, rfl, rfl, by decide, by decide,
    repr_width_selection wideReprInput
      ⟨"Info", [], .named [("x", "u8")], none⟩ [("x", "u8")] [] [] ("u128")
      rfl rfl (by decide) (by decide) rfl rfl (by decide) (by decide) (by decide)⟩

/-- Claim C8: for every declaration with fewer than two cases (zero or one,
hence no data case), the transformation is fatal: its output is exactly the
accumulated diagnostics ending in the message "a const_table enum needs at
least one variant with a discriminant expression", with no artifact. -/
theorem too_few_cases_fatal (input : ItemEnum)
    (hm : Attr.reprAttr .malformed ∉ input.attrs)
    (hle : input.variants.length ≤ 1) :
    const_table input =
      some (initDiags input ++ attrDiagsOf input.attrs ++
        [⟨input.name, needsVariantMsg⟩], none) := by
  have hdrop : input.variants.drop 1 = [] := List.drop_eq_nil_iff.mpr hle
  unfold const_table
  rw [foldlM_stepAttr input.attrs [] none (initDiags input) hm]
  unfold buildOutput
  rw [hdrop]
  simp

/-- Witness for C8 at `soloInput`, which has only the layout case. -/
theorem too_few_cases_fatal_witness :
    Attr.reprAttr .malformed ∉ soloInput.attrs ∧
    soloInput.variants.length ≤ 1 ∧
    const_table soloInput =
      some (initDiags soloInput ++ attrDiagsOf soloInput.attrs ++
        [⟨"Solo", needsVariantMsg⟩], none) :=
  ⟨by decide, by decide, too_few_cases_fatal soloInput (by decide) (by decide)⟩

end ConstTable
